import Mathlib

/-!
Shallow embedding of the Market-Sim exchange core
(`src/backend/engine/{orderbook,matching_engine,exchange}.py` and
`src/backend/core/{user,trade}.py`, order dataclass from
`src/src/core/order.py`), together with a spec-modelled time-in-force
layer for the parts of the exchange that the repository's tests and API
reference but whose implementation is not present in the source tree.

Modelling conventions:
* Python floats (prices, cash, timestamps) are modelled as exact
  rationals (`Rat`); Python ints (quantities) as `Int`; UUIDs as opaque
  `Nat` identifiers.
* Python dicts are modelled as insertion-ordered association lists with
  in-place update (`lookupA` / `setA`); `defaultdict(int)` reads default
  to `0`.
* `list.append(o); list.sort(key=...)` (Timsort, stable) is modelled as
  `List.insertionSort` of the appended list: any two stable sorts under
  the same total preorder produce the same list, so the insertion sort
  is extensionally the same function as Timsort here.
* Exceptions are modelled with `Except`; the exchange state is threaded
  explicitly and returned alongside the result, so "raises without
  having mutated anything" is a provable statement, not a modelling
  artefact.
* The asyncio lock and the `on_trades` callback are concurrency /
  observer plumbing with no effect on the sequential semantics and are
  not modelled.
-/

/-- `src/src/core/order.py` dataclass `Order` (the backend engine uses the
same field set). -/
structure Order where
  price : Rat
  quantity : Int
  user_id : Nat
  timestamp : Rat
  order_id : Nat
deriving DecidableEq, Repr

/-- `src/backend/core/trade.py` dataclass `Trade` (the auto-generated
`trade_id` and wall-clock `timestamp` carry no semantics and are omitted). -/
structure Trade where
  ticker : String
  price : Rat
  quantity : Int
  buyer_id : Nat
  seller_id : Nat
  buy_order_id : Nat
  sell_order_id : Nat
deriving DecidableEq, Repr

/-- The bid-side sort key comparison of `OrderBook.add_order`:
Python sorts bids by `(-price, timestamp)` ascending. -/
def bidLe (a b : Order) : Prop :=
  b.price < a.price ∨ (a.price = b.price ∧ a.timestamp ≤ b.timestamp)

/-- The ask-side sort key comparison of `OrderBook.add_order`:
Python sorts asks by `(price, timestamp)` ascending. -/
def askLe (a b : Order) : Prop :=
  a.price < b.price ∨ (a.price = b.price ∧ a.timestamp ≤ b.timestamp)

instance : DecidableRel bidLe := fun a b => by
  unfold bidLe; infer_instance

instance : DecidableRel askLe := fun a b => by
  unfold askLe; infer_instance

instance : IsTotal Order bidLe where
  total a b := by
    unfold bidLe
    rcases lt_trichotomy a.price b.price with h | h | h
    · exact Or.inr (Or.inl h)
    · rcases le_total a.timestamp b.timestamp with ht | ht
      · exact Or.inl (Or.inr ⟨h, ht⟩)
      · exact Or.inr (Or.inr ⟨h.symm, ht⟩)
    · exact Or.inl (Or.inl h)

instance : IsTrans Order bidLe where
  trans a b c hab hbc := by
    unfold bidLe at *
    rcases hab with h1 | ⟨h1, t1⟩ <;> rcases hbc with h2 | ⟨h2, t2⟩
    · exact Or.inl (h2.trans h1)
    · exact Or.inl (h2 ▸ h1)
    · exact Or.inl (h1 ▸ h2)
    · exact Or.inr ⟨h1.trans h2, t1.trans t2⟩

instance : IsTotal Order askLe where
  total a b := by
    unfold askLe
    rcases lt_trichotomy a.price b.price with h | h | h
    · exact Or.inl (Or.inl h)
    · rcases le_total a.timestamp b.timestamp with ht | ht
      · exact Or.inl (Or.inr ⟨h, ht⟩)
      · exact Or.inr (Or.inr ⟨h.symm, ht⟩)
    · exact Or.inr (Or.inl h)

instance : IsTrans Order askLe where
  trans a b c hab hbc := by
    unfold askLe at *
    rcases hab with h1 | ⟨h1, t1⟩ <;> rcases hbc with h2 | ⟨h2, t2⟩
    · exact Or.inl (h1.trans h2)
    · exact Or.inl (h2 ▸ h1)
    · exact Or.inl (h1 ▸ h2)
    · exact Or.inr ⟨h1.trans h2, t1.trans t2⟩

/-- `src/backend/engine/orderbook.py` class `OrderBook`. -/
structure OrderBook where
  ticker : String
  bids : List Order
  asks : List Order
deriving DecidableEq, Repr

/-- `OrderBook.add_order`: append and re-sort (stable) with the
side-appropriate key. An unrecognised side string leaves the book
untouched, as in the Python `if`/`elif`. -/
def OrderBook.add_order (book : OrderBook) (o : Order) (side : String) : OrderBook :=
  if side = "buy" then
    { book with bids := List.insertionSort bidLe (book.bids ++ [o]) }
  else if side = "sell" then
    { book with asks := List.insertionSort askLe (book.asks ++ [o]) }
  else book

/-- `OrderBook.remove_order`: remove the first order with the given id
from the given side, returning it if found. -/
def removeFirstById (order_id : Nat) : List Order → Option Order × List Order
  | [] => (none, [])
  | o :: rest =>
    if o.order_id = order_id then (some o, rest)
    else
      let r := removeFirstById order_id rest
      (r.1, o :: r.2)

def OrderBook.remove_order (book : OrderBook) (order_id : Nat) (side : String) :
    Option Order × OrderBook :=
  if side = "buy" then
    let r := removeFirstById order_id book.bids
    (r.1, { book with bids := r.2 })
  else
    let r := removeFirstById order_id book.asks
    (r.1, { book with asks := r.2 })

/-- `OrderBook.remove_orders_by_user`: drop every order owned by
`user_id` from both sides, returning the removed orders with side tags. -/
def OrderBook.remove_orders_by_user (book : OrderBook) (user_id : Nat) :
    List (Order × String) × OrderBook :=
  let removedBids := (book.bids.filter (fun o => o.user_id = user_id)).map (fun o => (o, "buy"))
  let removedAsks := (book.asks.filter (fun o => o.user_id = user_id)).map (fun o => (o, "sell"))
  (removedBids ++ removedAsks,
   { book with
       bids := book.bids.filter (fun o => ¬ o.user_id = user_id)
       asks := book.asks.filter (fun o => ¬ o.user_id = user_id) })

/-- The buy-side matching loop of `MatchingEngine.process_order`
(`src/backend/engine/matching_engine.py`, lines 22-48): while the taker
has quantity and the best ask crosses, trade at the maker's price,
decrement both, pop the maker when exhausted. Returns the updated taker,
the remaining asks, and the trades in execution order. -/
def matchBuy (ticker : String) (incoming : Order) : List Order → Order × List Order × List Trade
  | [] => (incoming, [], [])
  | a :: rest =>
    if 0 < incoming.quantity ∧ a.price ≤ incoming.price then
      let t : Trade :=
        { ticker := ticker, price := a.price,
          quantity := min incoming.quantity a.quantity,
          buyer_id := incoming.user_id, seller_id := a.user_id,
          buy_order_id := incoming.order_id, sell_order_id := a.order_id }
      let inc : Order :=
        { incoming with quantity := incoming.quantity - min incoming.quantity a.quantity }
      if a.quantity - min incoming.quantity a.quantity = 0 then
        let r := matchBuy ticker inc rest
        (r.1, r.2.1, t :: r.2.2)
      else
        -- The maker keeps quantity only when `a.quantity > incoming.quantity`,
        -- in which case the trade consumed `min = incoming.quantity`, the
        -- taker's remaining quantity is 0 and the Python `while` guard fails
        -- on its next test, so the loop exits with exactly this one trade.
        (inc, { a with quantity := a.quantity - min incoming.quantity a.quantity } :: rest, [t])
    else (incoming, a :: rest, [])

/-- The sell-side matching loop of `MatchingEngine.process_order`
(lines 53-79), symmetric to `matchBuy` over the bids. -/
def matchSell (ticker : String) (incoming : Order) : List Order → Order × List Order × List Trade
  | [] => (incoming, [], [])
  | b :: rest =>
    if 0 < incoming.quantity ∧ incoming.price ≤ b.price then
      let t : Trade :=
        { ticker := ticker, price := b.price,
          quantity := min incoming.quantity b.quantity,
          buyer_id := b.user_id, seller_id := incoming.user_id,
          buy_order_id := b.order_id, sell_order_id := incoming.order_id }
      let inc : Order :=
        { incoming with quantity := incoming.quantity - min incoming.quantity b.quantity }
      if b.quantity - min incoming.quantity b.quantity = 0 then
        let r := matchSell ticker inc rest
        (r.1, r.2.1, t :: r.2.2)
      else
        -- Same loop-exit reasoning as in `matchBuy`: the taker is exhausted
        -- here, so the Python loop emits this one trade and stops.
        (inc, { b with quantity := b.quantity - min incoming.quantity b.quantity } :: rest, [t])
    else (incoming, b :: rest, [])

/-- `MatchingEngine.process_order`: run the side's matching loop and then
rest the taker on its own side of the book when it still has quantity
(matching_engine.py lines 50-51 and 81-82). Returns the updated book,
the taker with its post-match quantity, and the trade list. -/
def process_order (book : OrderBook) (incoming : Order) (side : String) :
    OrderBook × Order × List Trade :=
  if side = "buy" then
    let r := matchBuy book.ticker incoming book.asks
    let book1 : OrderBook := { book with asks := r.2.1 }
    if 0 < r.1.quantity then (book1.add_order r.1 "buy", r.1, r.2.2)
    else (book1, r.1, r.2.2)
  else if side = "sell" then
    let r := matchSell book.ticker incoming book.bids
    let book1 : OrderBook := { book with bids := r.2.1 }
    if 0 < r.1.quantity then (book1.add_order r.1 "sell", r.1, r.2.2)
    else (book1, r.1, r.2.2)
  else (book, incoming, [])

/-- Python-dict lookup on an insertion-ordered association list. -/
def lookupA {κ α : Type} [DecidableEq κ] : List (κ × α) → κ → Option α
  | [], _ => none
  | (k, v) :: rest, key => if k = key then some v else lookupA rest key

/-- Python-dict assignment: replace in place when present, append when
fresh. -/
def setA {κ α : Type} [DecidableEq κ] : List (κ × α) → κ → α → List (κ × α)
  | [], key, v => [(key, v)]
  | (k, w) :: rest, key, v =>
    if k = key then (key, v) :: rest else (k, w) :: setA rest key v

/-- `src/backend/core/user.py` dataclass `User`; `portfolio` is a
`defaultdict(int)`, modelled as an association list read with default 0. -/
structure User where
  user_id : Nat
  username : String
  cash : Rat
  portfolio : List (String × Int)
  is_market_maker : Bool
deriving DecidableEq, Repr

/-- `defaultdict(int)` read. -/
def pget (p : List (String × Int)) (ticker : String) : Int :=
  (lookupA p ticker).getD 0

/-- `src/backend/engine/exchange.py` class `Exchange` state: per-ticker
books, last trade prices, registered users. The per-ticker
`MatchingEngine` objects are stateless wrappers around their book and
need no separate state. -/
structure Exchange where
  order_books : List (String × OrderBook)
  last_trades : List (String × Rat)
  users : List (Nat × User)
deriving DecidableEq, Repr

/-- The `ValueError`s `Exchange.place_order` can raise. -/
inductive ExErr where
  | tickerNotListed
  | userNotRegistered
  | insufficientFunds
  | insufficientShares
deriving DecidableEq, Repr

/-- `Exchange.add_ticker` (exchange.py lines 26-32). -/
def add_ticker (e : Exchange) (ticker : String) (initial_price : Option Rat) : Exchange :=
  if (lookupA e.order_books ticker).isSome then e
  else
    let empty_book : OrderBook := { ticker := ticker, bids := [], asks := [] }
    let e1 : Exchange := { e with order_books := setA e.order_books ticker empty_book }
    match initial_price with
    | some p => { e1 with last_trades := setA e1.last_trades ticker p }
    | none => e1

/-- `Exchange.register_user` (exchange.py lines 34-35): a plain dict
assignment. -/
def register_user (e : Exchange) (u : User) : Exchange :=
  { e with users := setA e.users u.user_id u }

/-- The escrow block of `Exchange.place_order` (lines 57-73): skipped for
market makers; bids require and debit cash, asks require and debit
inventory. -/
def escrowStep (user : User) (ticker : String) (order : Order) (side : String) :
    Except ExErr User :=
  if user.is_market_maker then Except.ok user
  else if side = "buy" then
    if user.cash < order.price * (order.quantity : Rat) then
      Except.error ExErr.insufficientFunds
    else Except.ok { user with cash := user.cash - order.price * (order.quantity : Rat) }
  else if side = "sell" then
    if pget user.portfolio ticker < order.quantity then
      Except.error ExErr.insufficientShares
    else
      let p1 := setA user.portfolio ticker (pget user.portfolio ticker - order.quantity)
      Except.ok { user with portfolio := p1 }
  else Except.ok user

/-- One iteration of the settlement loop of `Exchange.place_order`
(lines 84-103): credit the buyer's shares and the seller's cash for every
registered party. The seller is looked up after the buyer update so that
a buyer and seller with the same id behave like the single shared Python
object. -/
def settleTrade (users : List (Nat × User)) (ticker : String) (t : Trade) :
    List (Nat × User) :=
  let users1 :=
    match lookupA users t.buyer_id with
    | some b =>
      setA users t.buyer_id
        { b with portfolio := setA b.portfolio ticker (pget b.portfolio ticker + t.quantity) }
    | none => users
  match lookupA users1 t.seller_id with
  | some s =>
    setA users1 t.seller_id { s with cash := s.cash + t.price * (t.quantity : Rat) }
  | none => users1

def settleTrades (users : List (Nat × User)) (ticker : String) (trades : List Trade) :
    List (Nat × User) :=
  trades.foldl (fun us t => settleTrade us ticker t) users

/-- Σ t.price × t.quantity over a trade list (the `total_cost` sum of the
refund block). -/
def sumCost (trades : List Trade) : Rat :=
  (trades.map (fun t => t.price * (t.quantity : Rat))).sum

/-- Σ of trade quantities. -/
def sumQty (trades : List Trade) : Int :=
  (trades.map Trade.quantity).sum

/-- Σ of resting order quantities on one side of a book. -/
def sumOrderQty (orders : List Order) : Int :=
  (orders.map Order.quantity).sum

/-- `Exchange.place_order` (exchange.py lines 40-134): validate ticker
and user, escrow, match, record last price, settle, refund price
improvement on a fully filled non-market-maker bid, and report status.
The final state is returned together with the result so that an early
raise provably leaves the state unchanged. -/
def place_order (e : Exchange) (ticker : String) (order : Order) (side : String) :
    Exchange × Except ExErr (List Trade × String) :=
  match lookupA e.order_books ticker with
  | none => (e, Except.error ExErr.tickerNotListed)
  | some book =>
    match lookupA e.users order.user_id with
    | none => (e, Except.error ExErr.userNotRegistered)
    | some user =>
      let original_qty := order.quantity
      match escrowStep user ticker order side with
      | Except.error err => (e, Except.error err)
      | Except.ok user1 =>
        let e1 : Exchange := { e with users := setA e.users order.user_id user1 }
        let r := process_order book order side
        let e2 : Exchange := { e1 with order_books := setA e1.order_books ticker r.1 }
        let e3 : Exchange :=
          match r.2.2.getLast? with
          | some t => { e2 with last_trades := setA e2.last_trades ticker t.price }
          | none => e2
        let e4 : Exchange := { e3 with users := settleTrades e3.users ticker r.2.2 }
        let remaining_qty := r.2.1.quantity
        let filled_qty := original_qty - remaining_qty
        let e5 : Exchange :=
          if user.is_market_maker = false ∧ remaining_qty = 0 ∧ side = "buy" then
            match lookupA e4.users order.user_id with
            | some u =>
              let total_escrowed := order.price * (original_qty : Rat)
              let total_cost :=
                sumCost (r.2.2.filter (fun t => t.buyer_id = order.user_id))
              let refund := total_escrowed - total_cost
              if 0 < refund then
                { e4 with users := setA e4.users order.user_id { u with cash := u.cash + refund } }
              else e4
            | none => e4
          else e4
        let status :=
          if filled_qty = original_qty then "filled"
          else if 0 < filled_qty then "partial"
          else "open"
        (e5, Except.ok (r.2.2, status))

/-- Modelled from the spec: the time-in-force discipline of §4.3; the
source tree contains only its callers (`api/trading.py` passes
`time_in_force` through) and tests (`tests/test_exchange.py`), not the
implementing exchange code. -/
inductive Tif where
  | day
  | ioc
  | fok
deriving DecidableEq, Repr

/-- Modelled from the spec: the BID/ASK side enum of §6 for the
spec-level `place_order`; an invalid side string cannot be expressed, so
the BadInput arm for sides is not needed. -/
inductive Side where
  | bid
  | ask
deriving DecidableEq, Repr

/-- Modelled from the spec: the error taxonomy of §7 for the spec-level
`place_order`. -/
inductive SpecErr where
  | unknownInstrument
  | unknownAccount
  | badInput
  | insufficientFunds
  | insufficientInventory
  | fokUnfillable
deriving DecidableEq, Repr

/-- Modelled from the spec (§4.3 step 4): walk the opposite side without
mutation and determine the maximum crossable quantity at the order's
price. -/
def crossableQty (side : Side) (price : Rat) (book : OrderBook) : Int :=
  match side with
  | Side.bid => sumOrderQty (book.asks.takeWhile (fun a => decide (a.price ≤ price)))
  | Side.ask => sumOrderQty (book.bids.takeWhile (fun b => decide (price ≤ b.price)))

/-- Modelled from the spec (§4.3 step 3): escrow debit, skipped for
liquidity providers; missing from the source for the time-in-force path. -/
def escrowSpec (user : User) (symbol : String) (order : Order) (side : Side) :
    Except SpecErr User :=
  if user.is_market_maker then Except.ok user
  else
    match side with
    | Side.bid =>
      if user.cash < order.price * (order.quantity : Rat) then
        Except.error SpecErr.insufficientFunds
      else Except.ok { user with cash := user.cash - order.price * (order.quantity : Rat) }
    | Side.ask =>
      if pget user.portfolio symbol < order.quantity then
        Except.error SpecErr.insufficientInventory
      else
        let p1 := setA user.portfolio symbol (pget user.portfolio symbol - order.quantity)
        Except.ok { user with portfolio := p1 }

/-- Modelled from the spec (§4.3 step 4): refund the full escrow on a
FOK reject — exactly undo `escrowSpec`. -/
def refundEscrowSpec (user : User) (symbol : String) (order : Order) (side : Side) : User :=
  if user.is_market_maker then user
  else
    match side with
    | Side.bid => { user with cash := user.cash + order.price * (order.quantity : Rat) }
    | Side.ask =>
      let p1 := setA user.portfolio symbol (pget user.portfolio symbol + order.quantity)
      { user with portfolio := p1 }

/-- Modelled from the spec (§4.3 step 6): settle one trade, skipping
credits to liquidity-provider accounts. -/
def settleTradeSpec (users : List (Nat × User)) (symbol : String) (t : Trade) :
    List (Nat × User) :=
  let users1 :=
    match lookupA users t.buyer_id with
    | some b =>
      if b.is_market_maker then users
      else
        setA users t.buyer_id
          { b with portfolio := setA b.portfolio symbol (pget b.portfolio symbol + t.quantity) }
    | none => users
  match lookupA users1 t.seller_id with
  | some s =>
    if s.is_market_maker then users1
    else setA users1 t.seller_id { s with cash := s.cash + t.price * (t.quantity : Rat) }
  | none => users1

def settleTradesSpec (users : List (Nat × User)) (symbol : String) (trades : List Trade) :
    List (Nat × User) :=
  trades.foldl (fun us t => settleTradeSpec us symbol t) users

/-- Modelled from the spec (§4.3 step 8): the price-improvement refund on
a fully filled non-liquidity-provider bid,
`price × original_qty − Σ t.price × t.qty` over taker-side trades. -/
def bidImproveRefundSpec (users : List (Nat × User)) (order : Order) (original_qty : Int)
    (trades : List Trade) : List (Nat × User) :=
  match lookupA users order.user_id with
  | some u =>
    let refund :=
      order.price * (original_qty : Rat) -
        sumCost (trades.filter (fun t => t.buyer_id = order.user_id))
    setA users order.user_id { u with cash := u.cash + refund }
  | none => users

/-- Modelled from the spec (§4.3 step 8, IOC): refund the unfilled
remainder — `order.price × remaining` to cash on a bid, `remaining`
shares on an ask. -/
def iocRemainderRefundSpec (users : List (Nat × User)) (symbol : String) (order : Order)
    (side : Side) (remaining : Int) : List (Nat × User) :=
  match lookupA users order.user_id with
  | some u =>
    match side with
    | Side.bid =>
      setA users order.user_id { u with cash := u.cash + order.price * (remaining : Rat) }
    | Side.ask =>
      let p1 := setA u.portfolio symbol (pget u.portfolio symbol + remaining)
      setA users order.user_id { u with portfolio := p1 }
  | none => users

/-- Modelled from the spec: `place_order` with time-in-force (§4.3 steps
1-8), the part of the exchange the repository's tests exercise but whose
implementation is missing from the source tree. Follows the spec's order
of operations: validate, escrow, FOK pre-check, match (the engine here
does not rest the taker, §4.2 step 2), last-price update, settlement with
liquidity-provider credits skipped, then the tif-specific disposition. -/
def place_order_spec (e : Exchange) (symbol : String) (order : Order) (side : Side)
    (tif : Tif) : Exchange × Except SpecErr (List Trade × String) :=
  match lookupA e.order_books symbol with
  | none => (e, Except.error SpecErr.unknownInstrument)
  | some book =>
    match lookupA e.users order.user_id with
    | none => (e, Except.error SpecErr.unknownAccount)
    | some user =>
      if 0 < order.price ∧ 0 < order.quantity then
        let original_qty := order.quantity
        match escrowSpec user symbol order side with
        | Except.error err => (e, Except.error err)
        | Except.ok user1 =>
          let eEsc : Exchange := { e with users := setA e.users order.user_id user1 }
          if tif = Tif.fok ∧ crossableQty side order.price book < order.quantity then
            let user2 := refundEscrowSpec user1 symbol order side
            ({ eEsc with users := setA eEsc.users order.user_id user2 },
             Except.error SpecErr.fokUnfillable)
          else
            let m : OrderBook × Order × List Trade :=
              match side with
              | Side.bid =>
                let r := matchBuy book.ticker order book.asks
                ({ book with asks := r.2.1 }, r.1, r.2.2)
              | Side.ask =>
                let r := matchSell book.ticker order book.bids
                ({ book with bids := r.2.1 }, r.1, r.2.2)
            let e2 : Exchange := { eEsc with order_books := setA eEsc.order_books symbol m.1 }
            let e3 : Exchange :=
              match m.2.2.getLast? with
              | some t => { e2 with last_trades := setA e2.last_trades symbol t.price }
              | none => e2
            let e4 : Exchange := { e3 with users := settleTradesSpec e3.users symbol m.2.2 }
            let filled_qty := original_qty - m.2.1.quantity
            match tif with
            | Tif.day =>
              if 0 < m.2.1.quantity then
                let sideStr := match side with | Side.bid => "buy" | Side.ask => "sell"
                let book2 := m.1.add_order m.2.1 sideStr
                let e5 : Exchange := { e4 with order_books := setA e4.order_books symbol book2 }
                let status := if 0 < filled_qty then "partial" else "open"
                (e5, Except.ok (m.2.2, status))
              else
                let e5 : Exchange :=
                  if user.is_market_maker = false ∧ side = Side.bid then
                    { e4 with users := bidImproveRefundSpec e4.users order original_qty m.2.2 }
                  else e4
                (e5, Except.ok (m.2.2, "filled"))
            | Tif.ioc =>
              if 0 < m.2.1.quantity then
                let e5 : Exchange :=
                  if user.is_market_maker then e4
                  else
                    { e4 with users :=
                        iocRemainderRefundSpec e4.users symbol order side m.2.1.quantity }
                let status := if m.2.2 = [] then "cancelled" else "filled"
                (e5, Except.ok (m.2.2, status))
              else
                let e5 : Exchange :=
                  if user.is_market_maker = false ∧ side = Side.bid then
                    { e4 with users := bidImproveRefundSpec e4.users order original_qty m.2.2 }
                  else e4
                (e5, Except.ok (m.2.2, "filled"))
            | Tif.fok =>
              let e5 : Exchange :=
                if user.is_market_maker = false ∧ side = Side.bid then
                  { e4 with users := bidImproveRefundSpec e4.users order original_qty m.2.2 }
                else e4
              (e5, Except.ok (m.2.2, "filled"))
      else (e, Except.error SpecErr.badInput)

/-- Concrete test fixtures mirroring `tests/test_exchange.py`: a market
maker with no cash and a buyer with 10000. -/
def mmUser : User :=
  { user_id := 1, username := "mm", cash := 0, portfolio := [], is_market_maker := true }

def buyerUser : User :=
  { user_id := 2, username := "buyer", cash := 10000, portfolio := [], is_market_maker := false }

def emptyExchange : Exchange := { order_books := [], last_trades := [], users := [] }

/-- Exchange with ticker TEST listed and both fixture users registered. -/
def baseExch : Exchange :=
  register_user (register_user (add_ticker emptyExchange "TEST" (some 100)) mmUser) buyerUser

/-- Market-maker ask, 3 shares at 95. -/
def mmAsk95 : Order := { price := 95, quantity := 3, user_id := 1, timestamp := 0, order_id := 10 }

/-- `baseExch` after the market maker rests `mmAsk95`. -/
def exchAsk95 : Exchange := (place_order baseExch "TEST" mmAsk95 "sell").1

/-! ### Association-list lemmas -/

theorem lookupA_setA_self {κ α : Type} [DecidableEq κ] (l : List (κ × α)) (k : κ) (v : α) :
    lookupA (setA l k v) k = some v := by
  induction l with
  | nil => simp [setA, lookupA]
  | cons p rest ih =>
    by_cases h : p.1 = k
    · simp [setA, lookupA, h]
    · simp [setA, lookupA, h, ih]

theorem lookupA_setA_ne {κ α : Type} [DecidableEq κ] (l : List (κ × α)) {k k' : κ} (v : α)
    (h : k' ≠ k) : lookupA (setA l k v) k' = lookupA l k' := by
  have hk : k ≠ k' := Ne.symm h
  induction l with
  | nil => simp [setA, lookupA, hk]
  | cons p rest ih =>
    by_cases hp : p.1 = k
    · subst hp
      simp [setA, lookupA, hk]
    · simp only [setA, if_neg hp, lookupA]
      by_cases hp' : p.1 = k'
      · simp [hp']
      · simp [hp', ih]

theorem setA_setA {κ α : Type} [DecidableEq κ] (l : List (κ × α)) (k : κ) (v w : α) :
    setA (setA l k v) k w = setA l k w := by
  induction l with
  | nil => simp [setA]
  | cons p rest ih =>
    by_cases h : p.1 = k
    · simp [setA, h]
    · simp [setA, h, ih]

theorem setA_eq_of_lookupA {κ α : Type} [DecidableEq κ] {l : List (κ × α)} {k : κ} {v : α}
    (h : lookupA l k = some v) : setA l k v = l := by
  induction l with
  | nil => simp [lookupA] at h
  | cons p rest ih =>
    by_cases hp : p.1 = k
    · simp only [lookupA, if_pos hp] at h
      cases h
      simp only [setA, if_pos hp]
      rw [← hp]
    · simp only [lookupA, if_neg hp] at h
      simp [setA, hp, ih h]

/-! ### Quantity-sum lemmas -/

theorem sumQty_nil : sumQty [] = 0 := rfl

theorem sumQty_cons (t : Trade) (l : List Trade) : sumQty (t :: l) = t.quantity + sumQty l := by
  simp [sumQty]

theorem sumOrderQty_nil : sumOrderQty [] = 0 := rfl

theorem sumOrderQty_cons (o : Order) (l : List Order) :
    sumOrderQty (o :: l) = o.quantity + sumOrderQty l := by
  simp [sumOrderQty]

/-! ### Matching-loop lemmas, buy side -/

theorem matchBuy_not_pos (ticker : String) (inc : Order) (asks : List Order)
    (h : ¬ 0 < inc.quantity) : matchBuy ticker inc asks = (inc, asks, []) := by
  cases asks with
  | nil => rfl
  | cons a rest => simp [matchBuy, h]

theorem matchBuy_taker (ticker : String) (inc : Order) (asks : List Order) :
    (matchBuy ticker inc asks).1
      = { inc with quantity := (matchBuy ticker inc asks).1.quantity } := by
  induction asks generalizing inc with
  | nil => rfl
  | cons a rest ih =>
    by_cases hg : 0 < inc.quantity ∧ a.price ≤ inc.price
    · by_cases hz : a.quantity - min inc.quantity a.quantity = 0
      · simp only [matchBuy, if_pos hg, if_pos hz]
        exact ih { inc with quantity := inc.quantity - min inc.quantity a.quantity }
      · simp only [matchBuy, if_pos hg, if_neg hz]
    · simp only [matchBuy, if_neg hg]

theorem matchBuy_conserve (ticker : String) (inc : Order) (asks : List Order) :
    sumQty (matchBuy ticker inc asks).2.2
        = inc.quantity - (matchBuy ticker inc asks).1.quantity
      ∧ sumOrderQty asks
        = sumOrderQty (matchBuy ticker inc asks).2.1 + sumQty (matchBuy ticker inc asks).2.2 := by
  induction asks generalizing inc with
  | nil => simp [matchBuy, sumQty_nil, sumOrderQty_nil]
  | cons a rest ih =>
    by_cases hg : 0 < inc.quantity ∧ a.price ≤ inc.price
    · by_cases hz : a.quantity - min inc.quantity a.quantity = 0
      · obtain ⟨ih1, ih2⟩ := ih { inc with quantity := inc.quantity - min inc.quantity a.quantity }
        simp only [matchBuy, if_pos hg, if_pos hz, sumQty_cons, sumOrderQty_cons]
        simp only at ih1
        constructor <;> omega
      · simp only [matchBuy, if_pos hg, if_neg hz, sumQty_cons, sumQty_nil, sumOrderQty_cons]
        constructor <;> omega
    · simp only [matchBuy, if_neg hg, sumQty_nil]
      omega

theorem matchBuy_trades_pos (ticker : String) (inc : Order) (asks : List Order)
    (hpos : ∀ a ∈ asks, 0 < a.quantity) :
    ∀ t ∈ (matchBuy ticker inc asks).2.2, 1 ≤ t.quantity := by
  induction asks generalizing inc with
  | nil => intro t ht; simp [matchBuy] at ht
  | cons a rest ih =>
    by_cases hg : 0 < inc.quantity ∧ a.price ≤ inc.price
    · have hapos : 0 < a.quantity := hpos a (List.mem_cons_self a rest)
      by_cases hz : a.quantity - min inc.quantity a.quantity = 0
      · simp only [matchBuy, if_pos hg, if_pos hz]
        intro t ht
        rcases List.mem_cons.mp ht with rfl | ht'
        · simp only []
          omega
        · exact ih { inc with quantity := inc.quantity - min inc.quantity a.quantity }
            (fun x hx => hpos x (List.mem_cons_of_mem a hx)) t ht'
      · simp only [matchBuy, if_pos hg, if_neg hz]
        intro t ht
        rcases List.mem_cons.mp ht with rfl | ht'
        · simp only []
          omega
        · simp at ht'
    · simp only [matchBuy, if_neg hg]
      intro t ht
      simp at ht

theorem matchBuy_rest_mem (ticker : String) (inc : Order) (asks : List Order) :
    ∀ x ∈ (matchBuy ticker inc asks).2.1, ∃ a ∈ asks,
      x.price = a.price ∧ x.timestamp = a.timestamp ∧ x.order_id = a.order_id := by
  induction asks generalizing inc with
  | nil => intro x hx; simp [matchBuy] at hx
  | cons a rest ih =>
    by_cases hg : 0 < inc.quantity ∧ a.price ≤ inc.price
    · by_cases hz : a.quantity - min inc.quantity a.quantity = 0
      · simp only [matchBuy, if_pos hg, if_pos hz]
        intro x hx
        obtain ⟨a0, ha0, he⟩ := ih { inc with quantity := inc.quantity - min inc.quantity a.quantity } x hx
        exact ⟨a0, List.mem_cons_of_mem a ha0, he⟩
      · simp only [matchBuy, if_pos hg, if_neg hz]
        intro x hx
        rcases List.mem_cons.mp hx with rfl | hx'
        · exact ⟨a, List.mem_cons_self a rest, rfl, rfl, rfl⟩
        · exact ⟨x, List.mem_cons_of_mem a hx', rfl, rfl, rfl⟩
    · simp only [matchBuy, if_neg hg]
      intro x hx
      exact ⟨x, hx, rfl, rfl, rfl⟩

theorem matchBuy_sorted (ticker : String) (inc : Order) (asks : List Order)
    (h : List.Sorted askLe asks) : List.Sorted askLe (matchBuy ticker inc asks).2.1 := by
  induction asks generalizing inc with
  | nil => simpa [matchBuy] using h
  | cons a rest ih =>
    by_cases hg : 0 < inc.quantity ∧ a.price ≤ inc.price
    · by_cases hz : a.quantity - min inc.quantity a.quantity = 0
      · simp only [matchBuy, if_pos hg, if_pos hz]
        exact ih { inc with quantity := inc.quantity - min inc.quantity a.quantity } h.of_cons
      · simp only [matchBuy, if_pos hg, if_neg hz]
        refine List.sorted_cons.mpr ⟨?_, h.of_cons⟩
        intro b hb
        have := List.rel_of_sorted_cons h b hb
        unfold askLe at this ⊢
        simpa using this
    · simpa only [matchBuy, if_neg hg] using h

theorem matchBuy_exit (ticker : String) (inc : Order) (asks : List Order)
    (hq : 0 < (matchBuy ticker inc asks).1.quantity) :
    ∀ x rest2, (matchBuy ticker inc asks).2.1 = x :: rest2 →
      (matchBuy ticker inc asks).1.price < x.price := by
  induction asks generalizing inc with
  | nil => intro x rest2 hx; simp [matchBuy] at hx
  | cons a rest ih =>
    by_cases hg : 0 < inc.quantity ∧ a.price ≤ inc.price
    · by_cases hz : a.quantity - min inc.quantity a.quantity = 0
      · simp only [matchBuy, if_pos hg, if_pos hz] at hq ⊢
        exact ih { inc with quantity := inc.quantity - min inc.quantity a.quantity } hq
      · simp only [matchBuy, if_pos hg, if_neg hz] at hq ⊢
        omega
    · simp only [matchBuy, if_neg hg] at hq ⊢
      intro x rest2 hx
      cases hx
      push_neg at hg
      exact lt_of_not_le fun hle => absurd (hg hq) (not_lt.mpr hle)

theorem matchBuy_fills (ticker : String) (inc : Order) (asks : List Order)
    (hpos : ∀ a ∈ asks, 0 < a.quantity) (hq : 0 < inc.quantity)
    (hcross : inc.quantity
      ≤ sumOrderQty (asks.takeWhile (fun a => decide (a.price ≤ inc.price)))) :
    (matchBuy ticker inc asks).1.quantity = 0 := by
  induction asks generalizing inc with
  | nil => simp [sumOrderQty_nil] at hcross; omega
  | cons a rest ih =>
    by_cases hp : a.price ≤ inc.price
    · have hg : 0 < inc.quantity ∧ a.price ≤ inc.price := ⟨hq, hp⟩
      rw [List.takeWhile_cons, if_pos (by simpa using hp)] at hcross
      rw [sumOrderQty_cons] at hcross
      by_cases hz : a.quantity - min inc.quantity a.quantity = 0
      · simp only [matchBuy, if_pos hg, if_pos hz]
        by_cases hq2 : 0 < inc.quantity - min inc.quantity a.quantity
        · apply ih { inc with quantity := inc.quantity - min inc.quantity a.quantity }
            (fun x hx => hpos x (List.mem_cons_of_mem a hx)) hq2
          simp only []
          omega
        · rw [matchBuy_not_pos ticker _ rest hq2]
          simp only []
          omega
      · simp only [matchBuy, if_pos hg, if_neg hz]
        omega
    · rw [List.takeWhile_cons, if_neg (by simpa using hp)] at hcross
      rw [sumOrderQty_nil] at hcross
      omega

theorem matchBuy_makers (ticker : String) (inc : Order) (asks : List Order) :
    (matchBuy ticker inc asks).2.2.map Trade.sell_order_id
      = (asks.take (matchBuy ticker inc asks).2.2.length).map Order.order_id := by
  induction asks generalizing inc with
  | nil => simp [matchBuy]
  | cons a rest ih =>
    by_cases hg : 0 < inc.quantity ∧ a.price ≤ inc.price
    · by_cases hz : a.quantity - min inc.quantity a.quantity = 0
      · simp only [matchBuy, if_pos hg, if_pos hz, List.map_cons, List.length_cons,
          List.take_succ_cons]
        rw [ih { inc with quantity := inc.quantity - min inc.quantity a.quantity }]
      · simp only [matchBuy, if_pos hg, if_neg hz, List.map_cons, List.length_cons,
          List.length_nil, List.take_succ_cons, List.take_zero, List.map_nil]
    · simp [matchBuy, if_neg hg]

/-! ### Matching-loop lemmas, sell side -/

theorem matchSell_not_pos (ticker : String) (inc : Order) (bids : List Order)
    (h : ¬ 0 < inc.quantity) : matchSell ticker inc bids = (inc, bids, []) := by
  cases bids with
  | nil => rfl
  | cons b rest => simp [matchSell, h]

theorem matchSell_taker (ticker : String) (inc : Order) (bids : List Order) :
    (matchSell ticker inc bids).1
      = { inc with quantity := (matchSell ticker inc bids).1.quantity } := by
  induction bids generalizing inc with
  | nil => rfl
  | cons b rest ih =>
    by_cases hg : 0 < inc.quantity ∧ inc.price ≤ b.price
    · by_cases hz : b.quantity - min inc.quantity b.quantity = 0
      · simp only [matchSell, if_pos hg, if_pos hz]
        exact ih { inc with quantity := inc.quantity - min inc.quantity b.quantity }
      · simp only [matchSell, if_pos hg, if_neg hz]
    · simp only [matchSell, if_neg hg]

theorem matchSell_conserve (ticker : String) (inc : Order) (bids : List Order) :
    sumQty (matchSell ticker inc bids).2.2
        = inc.quantity - (matchSell ticker inc bids).1.quantity
      ∧ sumOrderQty bids
        = sumOrderQty (matchSell ticker inc bids).2.1 + sumQty (matchSell ticker inc bids).2.2 := by
  induction bids generalizing inc with
  | nil => simp [matchSell, sumQty_nil, sumOrderQty_nil]
  | cons b rest ih =>
    by_cases hg : 0 < inc.quantity ∧ inc.price ≤ b.price
    · by_cases hz : b.quantity - min inc.quantity b.quantity = 0
      · obtain ⟨ih1, ih2⟩ := ih { inc with quantity := inc.quantity - min inc.quantity b.quantity }
        simp only [matchSell, if_pos hg, if_pos hz, sumQty_cons, sumOrderQty_cons]
        simp only at ih1
        constructor <;> omega
      · simp only [matchSell, if_pos hg, if_neg hz, sumQty_cons, sumQty_nil, sumOrderQty_cons]
        constructor <;> omega
    · simp only [matchSell, if_neg hg, sumQty_nil]
      omega

theorem matchSell_trades_pos (ticker : String) (inc : Order) (bids : List Order)
    (hpos : ∀ b ∈ bids, 0 < b.quantity) :
    ∀ t ∈ (matchSell ticker inc bids).2.2, 1 ≤ t.quantity := by
  induction bids generalizing inc with
  | nil => intro t ht; simp [matchSell] at ht
  | cons b rest ih =>
    by_cases hg : 0 < inc.quantity ∧ inc.price ≤ b.price
    · have hbpos : 0 < b.quantity := hpos b (List.mem_cons_self b rest)
      by_cases hz : b.quantity - min inc.quantity b.quantity = 0
      · simp only [matchSell, if_pos hg, if_pos hz]
        intro t ht
        rcases List.mem_cons.mp ht with rfl | ht'
        · simp only []
          omega
        · exact ih { inc with quantity := inc.quantity - min inc.quantity b.quantity }
            (fun x hx => hpos x (List.mem_cons_of_mem b hx)) t ht'
      · simp only [matchSell, if_pos hg, if_neg hz]
        intro t ht
        rcases List.mem_cons.mp ht with rfl | ht'
        · simp only []
          omega
        · simp at ht'
    · simp only [matchSell, if_neg hg]
      intro t ht
      simp at ht

theorem matchSell_rest_mem (ticker : String) (inc : Order) (bids : List Order) :
    ∀ x ∈ (matchSell ticker inc bids).2.1, ∃ b ∈ bids,
      x.price = b.price ∧ x.timestamp = b.timestamp ∧ x.order_id = b.order_id := by
  induction bids generalizing inc with
  | nil => intro x hx; simp [matchSell] at hx
  | cons b rest ih =>
    by_cases hg : 0 < inc.quantity ∧ inc.price ≤ b.price
    · by_cases hz : b.quantity - min inc.quantity b.quantity = 0
      · simp only [matchSell, if_pos hg, if_pos hz]
        intro x hx
        obtain ⟨b0, hb0, he⟩ := ih { inc with quantity := inc.quantity - min inc.quantity b.quantity } x hx
        exact ⟨b0, List.mem_cons_of_mem b hb0, he⟩
      · simp only [matchSell, if_pos hg, if_neg hz]
        intro x hx
        rcases List.mem_cons.mp hx with rfl | hx'
        · exact ⟨b, List.mem_cons_self b rest, rfl, rfl, rfl⟩
        · exact ⟨x, List.mem_cons_of_mem b hx', rfl, rfl, rfl⟩
    · simp only [matchSell, if_neg hg]
      intro x hx
      exact ⟨x, hx, rfl, rfl, rfl⟩

theorem matchSell_sorted (ticker : String) (inc : Order) (bids : List Order)
    (h : List.Sorted bidLe bids) : List.Sorted bidLe (matchSell ticker inc bids).2.1 := by
  induction bids generalizing inc with
  | nil => simpa [matchSell] using h
  | cons b rest ih =>
    by_cases hg : 0 < inc.quantity ∧ inc.price ≤ b.price
    · by_cases hz : b.quantity - min inc.quantity b.quantity = 0
      · simp only [matchSell, if_pos hg, if_pos hz]
        exact ih { inc with quantity := inc.quantity - min inc.quantity b.quantity } h.of_cons
      · simp only [matchSell, if_pos hg, if_neg hz]
        refine List.sorted_cons.mpr ⟨?_, h.of_cons⟩
        intro x hx
        have := List.rel_of_sorted_cons h x hx
        unfold bidLe at this ⊢
        simpa using this
    · simpa only [matchSell, if_neg hg] using h

theorem matchSell_exit (ticker : String) (inc : Order) (bids : List Order)
    (hq : 0 < (matchSell ticker inc bids).1.quantity) :
    ∀ x rest2, (matchSell ticker inc bids).2.1 = x :: rest2 →
      x.price < (matchSell ticker inc bids).1.price := by
  induction bids generalizing inc with
  | nil => intro x rest2 hx; simp [matchSell] at hx
  | cons b rest ih =>
    by_cases hg : 0 < inc.quantity ∧ inc.price ≤ b.price
    · by_cases hz : b.quantity - min inc.quantity b.quantity = 0
      · simp only [matchSell, if_pos hg, if_pos hz] at hq ⊢
        exact ih { inc with quantity := inc.quantity - min inc.quantity b.quantity } hq
      · simp only [matchSell, if_pos hg, if_neg hz] at hq ⊢
        omega
    · simp only [matchSell, if_neg hg] at hq ⊢
      intro x rest2 hx
      cases hx
      push_neg at hg
      exact lt_of_not_le fun hle => absurd (hg hq) (not_lt.mpr hle)

theorem matchSell_fills (ticker : String) (inc : Order) (bids : List Order)
    (hpos : ∀ b ∈ bids, 0 < b.quantity) (hq : 0 < inc.quantity)
    (hcross : inc.quantity
      ≤ sumOrderQty (bids.takeWhile (fun b => decide (inc.price ≤ b.price)))) :
    (matchSell ticker inc bids).1.quantity = 0 := by
  induction bids generalizing inc with
  | nil => simp [sumOrderQty_nil] at hcross; omega
  | cons b rest ih =>
    by_cases hp : inc.price ≤ b.price
    · have hg : 0 < inc.quantity ∧ inc.price ≤ b.price := ⟨hq, hp⟩
      rw [List.takeWhile_cons, if_pos (by simpa using hp)] at hcross
      rw [sumOrderQty_cons] at hcross
      by_cases hz : b.quantity - min inc.quantity b.quantity = 0
      · simp only [matchSell, if_pos hg, if_pos hz]
        by_cases hq2 : 0 < inc.quantity - min inc.quantity b.quantity
        · apply ih { inc with quantity := inc.quantity - min inc.quantity b.quantity }
            (fun x hx => hpos x (List.mem_cons_of_mem b hx)) hq2
          simp only []
          omega
        · rw [matchSell_not_pos ticker _ rest hq2]
          simp only []
          omega
      · simp only [matchSell, if_pos hg, if_neg hz]
        omega
    · rw [List.takeWhile_cons, if_neg (by simpa using hp)] at hcross
      rw [sumOrderQty_nil] at hcross
      omega

theorem matchSell_makers (ticker : String) (inc : Order) (bids : List Order) :
    (matchSell ticker inc bids).2.2.map Trade.buy_order_id
      = (bids.take (matchSell ticker inc bids).2.2.length).map Order.order_id := by
  induction bids generalizing inc with
  | nil => simp [matchSell]
  | cons b rest ih =>
    by_cases hg : 0 < inc.quantity ∧ inc.price ≤ b.price
    · by_cases hz : b.quantity - min inc.quantity b.quantity = 0
      · simp only [matchSell, if_pos hg, if_pos hz, List.map_cons, List.length_cons,
          List.take_succ_cons]
        rw [ih { inc with quantity := inc.quantity - min inc.quantity b.quantity }]
      · simp only [matchSell, if_pos hg, if_neg hz, List.map_cons, List.length_cons,
          List.length_nil, List.take_succ_cons, List.take_zero, List.map_nil]
    · simp [matchSell, if_neg hg]

/-! ### Unfolding helpers for `process_order` -/

theorem process_order_buy (book : OrderBook) (inc : Order) :
    process_order book inc "buy"
      = (if 0 < (matchBuy book.ticker inc book.asks).1.quantity then
           ({ book with asks := (matchBuy book.ticker inc book.asks).2.1 }).add_order
             (matchBuy book.ticker inc book.asks).1 "buy"
         else { book with asks := (matchBuy book.ticker inc book.asks).2.1 },
         (matchBuy book.ticker inc book.asks).1, (matchBuy book.ticker inc book.asks).2.2) := by
  by_cases h : 0 < (matchBuy book.ticker inc book.asks).1.quantity
  · simp [process_order, h]
  · simp [process_order, h]

theorem process_order_sell (book : OrderBook) (inc : Order) :
    process_order book inc "sell"
      = (if 0 < (matchSell book.ticker inc book.bids).1.quantity then
           ({ book with bids := (matchSell book.ticker inc book.bids).2.1 }).add_order
             (matchSell book.ticker inc book.bids).1 "sell"
         else { book with bids := (matchSell book.ticker inc book.bids).2.1 },
         (matchSell book.ticker inc book.bids).1, (matchSell book.ticker inc book.bids).2.2) := by
  by_cases h : 0 < (matchSell book.ticker inc book.bids).1.quantity
  · simp [process_order, h]
  · simp [process_order, h]

/-- C1 counterexample: on an empty book, `process_order` places the
unfilled buy taker on the bid side itself, contradicting the claim that
the engine never rests the taker and leaves resting to the caller. -/
theorem C1_counterexample :
    (process_order { ticker := "T", bids := [], asks := [] }
        { price := 10, quantity := 5, user_id := 7, timestamp := 0, order_id := 1 } "buy").1.bids
      = [{ price := 10, quantity := 5, user_id := 7, timestamp := 0, order_id := 1 }] := by
  rfl

/-- C1 (amended): `MatchingEngine.process_order` itself rests the taker
on its own side of the book exactly when its post-match remaining
quantity is positive; the caller makes no resting decision (the source
has no time-in-force dispatch). -/
theorem C1_engine_rests_taker (book : OrderBook) (inc : Order) :
    (0 < (process_order book inc "buy").2.1.quantity →
        (process_order book inc "buy").2.1 ∈ (process_order book inc "buy").1.bids)
    ∧ (¬ 0 < (process_order book inc "buy").2.1.quantity →
        (process_order book inc "buy").1.bids = book.bids)
    ∧ (0 < (process_order book inc "sell").2.1.quantity →
        (process_order book inc "sell").2.1 ∈ (process_order book inc "sell").1.asks)
    ∧ (¬ 0 < (process_order book inc "sell").2.1.quantity →
        (process_order book inc "sell").1.asks = book.asks) := by
  rw [process_order_buy, process_order_sell]
  refine ⟨?_, ?_, ?_, ?_⟩
  · intro h
    simp only at h
    simp [if_pos h, OrderBook.add_order, List.mem_insertionSort]
  · intro h
    simp only at h
    simp [if_neg h]
  · intro h
    simp only at h
    simp [if_pos h, OrderBook.add_order, List.mem_insertionSort]
  · intro h
    simp only at h
    simp [if_neg h]

/-- C1 witness: instantiation of `C1_engine_rests_taker` on a concrete
unfilled buy order. -/
theorem C1_engine_rests_taker_witness :
    (process_order { ticker := "T", bids := [], asks := [] }
        { price := 10, quantity := 5, user_id := 7, timestamp := 0, order_id := 1 } "buy").2.1
      ∈ (process_order { ticker := "T", bids := [], asks := [] }
        { price := 10, quantity := 5, user_id := 7, timestamp := 0, order_id := 1 } "buy").1.bids := by
  exact (C1_engine_rests_taker { ticker := "T", bids := [], asks := [] }
      { price := 10, quantity := 5, user_id := 7, timestamp := 0, order_id := 1 }).1 (by decide)

/-- C9 counterexample: registering a second account with an already-used
id is not rejected — the existing entry is overwritten by the new one. -/
theorem C9_counterexample :
    lookupA (register_user (register_user emptyExchange
        { user_id := 5, username := "a", cash := 100, portfolio := [], is_market_maker := false })
        { user_id := 5, username := "b", cash := 200, portfolio := [], is_market_maker := false }).users 5
      = some { user_id := 5, username := "b", cash := 200, portfolio := [], is_market_maker := false }
    ∧ ({ user_id := 5, username := "b", cash := 200, portfolio := [], is_market_maker := false } : User)
      ≠ { user_id := 5, username := "a", cash := 100, portfolio := [], is_market_maker := false } := by
  constructor
  · rfl
  · decide

/-- C9 (amended): `Exchange.register_user` is an unconditional dict
assignment: it inserts a fresh account and silently replaces an existing
account with the same id; entries under other ids are untouched. -/
theorem C9_register_overwrites (e : Exchange) (u : User) :
    lookupA (register_user e u).users u.user_id = some u
    ∧ ∀ k, k ≠ u.user_id → lookupA (register_user e u).users k = lookupA e.users k := by
  constructor
  · exact lookupA_setA_self e.users u.user_id u
  · intro k hk
    exact lookupA_setA_ne e.users u hk

/-- C9 witness: instantiation of `C9_register_overwrites` on concrete data. -/
theorem C9_register_overwrites_witness :
    lookupA (register_user baseExch mmUser).users 1 = some mmUser
    ∧ lookupA (register_user baseExch mmUser).users 2 = lookupA baseExch.users 2 := by
  have h := C9_register_overwrites baseExch mmUser
  exact ⟨h.1, h.2 2 (by decide)⟩

/-- C5: a bid by a non-market-maker whose cash is below price × quantity
fails with the insufficient-funds error and returns the exchange state
unchanged; an ask whose inventory in the ticker is below the quantity
fails with the insufficient-shares error, also with no state change. -/
theorem C5_escrow_rejection (e : Exchange) (ticker : String) (order : Order)
    (book : OrderBook) (user : User)
    (hbook : lookupA e.order_books ticker = some book)
    (huser : lookupA e.users order.user_id = some user)
    (hmm : user.is_market_maker = false) :
    (user.cash < order.price * (order.quantity : Rat) →
        place_order e ticker order "buy" = (e, Except.error ExErr.insufficientFunds))
    ∧ (pget user.portfolio ticker < order.quantity →
        place_order e ticker order "sell" = (e, Except.error ExErr.insufficientShares)) := by
  constructor
  · intro hc
    simp [place_order, hbook, huser, escrowStep, hmm, hc]
  · intro hc
    simp [place_order, hbook, huser, escrowStep, hmm, hc]

/-- C5 witness: the fixture buyer (cash 10000) cannot bid 100 shares at
200, and cannot sell shares it does not own. -/
theorem C5_escrow_rejection_witness :
    place_order baseExch "TEST"
        { price := 200, quantity := 100, user_id := 2, timestamp := 0, order_id := 40 } "buy"
      = (baseExch, Except.error ExErr.insufficientFunds)
    ∧ place_order baseExch "TEST"
        { price := 100, quantity := 10, user_id := 2, timestamp := 0, order_id := 41 } "sell"
      = (baseExch, Except.error ExErr.insufficientShares) := by
  constructor
  · exact (C5_escrow_rejection baseExch "TEST"
        { price := 200, quantity := 100, user_id := 2, timestamp := 0, order_id := 40 }
        { ticker := "TEST", bids := [], asks := [] } buyerUser
        (by rfl) (by rfl) (by rfl)).1 (by norm_num [buyerUser])
  · exact (C5_escrow_rejection baseExch "TEST"
        { price := 100, quantity := 10, user_id := 2, timestamp := 0, order_id := 41 }
        { ticker := "TEST", bids := [], asks := [] } buyerUser
        (by rfl) (by rfl) (by rfl)).2 (by norm_num [buyerUser, pget, lookupA])

/-- C8 counterexample: the core `place_order` performs no positivity
validation. A registered non-market-maker bid at price −5 succeeds with
status "open" (no error of any kind) and mutates state: the negative
"cost" is subtracted, so the buyer's cash rises from 10000 to 10005. -/
theorem C8_counterexample :
    (place_order baseExch "TEST"
        { price := -5, quantity := 1, user_id := 2, timestamp := 0, order_id := 30 } "buy").2
      = Except.ok ([], "open")
    ∧ (lookupA (place_order baseExch "TEST"
        { price := -5, quantity := 1, user_id := 2, timestamp := 0, order_id := 30 } "buy").1.users
          2).map User.cash
      = some 10005 := by
  constructor <;>
    norm_num [place_order, process_order, matchBuy, matchSell, escrowStep, settleTrades,
      settleTrade, lookupA, setA, pget, sumCost, OrderBook.add_order, List.insertionSort,
      List.orderedInsert, add_ticker, register_user, baseExch, emptyExchange, mmUser,
      buyerUser, bidLe, askLe]

/-- C8 (amended): the core `place_order` checks only ticker listing, user
registration and escrow sufficiency; price or quantity being nonpositive
triggers no BadInput failure — the call still succeeds (input validation
exists only at the HTTP layer, `api/trading.py`). -/
theorem C8_no_badinput_validation (e : Exchange) (ticker : String) (order : Order)
    (book : OrderBook) (user : User)
    (hbook : lookupA e.order_books ticker = some book)
    (huser : lookupA e.users order.user_id = some user)
    (hmm : user.is_market_maker = false)
    (hbad : order.price ≤ 0 ∨ order.quantity ≤ 0)
    (hcash : ¬ user.cash < order.price * (order.quantity : Rat)) :
    ∃ res, (place_order e ticker order "buy").2 = Except.ok res := by
  simp only [place_order, hbook, huser, escrowStep, hmm, Bool.false_eq_true, if_false,
    if_pos rfl, if_neg hcash]
  exact ⟨_, rfl⟩

/-- C8 witness: instantiation of `C8_no_badinput_validation` at the
negative-price order of the counterexample. -/
theorem C8_no_badinput_validation_witness :
    ∃ res, (place_order baseExch "TEST"
        { price := -5, quantity := 1, user_id := 2, timestamp := 0, order_id := 30 } "buy").2
      = Except.ok res := by
  exact C8_no_badinput_validation baseExch "TEST"
    { price := -5, quantity := 1, user_id := 2, timestamp := 0, order_id := 30 }
    { ticker := "TEST", bids := [], asks := [] } buyerUser
    (by rfl) (by rfl) (by rfl) (by norm_num) (by norm_num [buyerUser])

/-- C3: the code contradicts its own test
`test_partial_fill_price_improvement_refund`. With the market maker's 3
shares resting at 95, a DAY bid for 10 at 100 by the buyer fills 3 at 95
and rests 7, and the code leaves the buyer's cash at 9000 — the refund
block runs only on a full fill — whereas the claim's formula
`10000 − Σ t.price·t.qty − price × rested = 10000 − 285 − 700` demands
9015. -/
theorem C3_partial_fill_misses_refund :
    (lookupA (place_order exchAsk95 "TEST"
        { price := 100, quantity := 10, user_id := 2, timestamp := 1, order_id := 20 } "buy").1.users
          2).map User.cash
      = some 9000
    ∧ (9000 : Rat) ≠ 10000 - (95 * 3 + 100 * 7) := by
  constructor
  · norm_num [place_order, process_order, matchBuy, matchSell, escrowStep, settleTrades,
      settleTrade, lookupA, setA, pget, sumCost, OrderBook.add_order, List.insertionSort,
      List.orderedInsert, add_ticker, register_user, baseExch, emptyExchange, mmUser,
      buyerUser, mmAsk95, exchAsk95, bidLe, askLe]
  · norm_num

/-- C4 counterexample: in the same scenario the market maker's account
(cash 0, `is_market_maker = true`) is credited the seller proceeds
95 × 3 = 285 by the settlement loop — the loop checks only registration,
never the liquidity-provider flag, so the claimed credit-skipping does
not happen. -/
theorem C4_mm_receives_settlement_credit :
    (lookupA (place_order exchAsk95 "TEST"
        { price := 100, quantity := 10, user_id := 2, timestamp := 1, order_id := 20 } "buy").1.users
          1).map User.cash
      = some 285
    ∧ (285 : Rat) ≠ 0 := by
  constructor
  · norm_num [place_order, process_order, matchBuy, matchSell, escrowStep, settleTrades,
      settleTrade, lookupA, setA, pget, sumCost, OrderBook.add_order, List.insertionSort,
      List.orderedInsert, add_ticker, register_user, baseExch, emptyExchange, mmUser,
      buyerUser, mmAsk95, exchAsk95, bidLe, askLe]
  · norm_num

/-- C4 (amended): the settlement loop of `place_order` credits the
buyer's inventory and the seller's cash for every registered account,
regardless of the `is_market_maker` flag; only the pre-trade escrow is
skipped for market makers. -/
theorem C4_settlement_ignores_mm_flag (users : List (Nat × User)) (ticker : String)
    (t : Trade) (b s : User)
    (hb : lookupA users t.buyer_id = some b)
    (hs : lookupA users t.seller_id = some s)
    (hne : t.buyer_id ≠ t.seller_id) :
    lookupA (settleTrade users ticker t) t.buyer_id
        = some { b with portfolio := setA b.portfolio ticker (pget b.portfolio ticker + t.quantity) }
    ∧ lookupA (settleTrade users ticker t) t.seller_id
        = some { s with cash := s.cash + t.price * (t.quantity : Rat) } := by
  have hs1 : lookupA (setA users t.buyer_id
      { b with portfolio := setA b.portfolio ticker (pget b.portfolio ticker + t.quantity) })
        t.seller_id = some s := by
    rw [lookupA_setA_ne _ _ (Ne.symm hne)]
    exact hs
  simp only [settleTrade, hb, hs1]
  constructor
  · rw [lookupA_setA_ne _ _ hne]
    exact lookupA_setA_self _ _ _
  · exact lookupA_setA_self _ _ _

/-- C4 witness: instantiation of `C4_settlement_ignores_mm_flag` with a
market-maker seller, which still receives the cash credit. -/
theorem C4_settlement_ignores_mm_flag_witness :
    lookupA (settleTrade [(1, mmUser), (2, buyerUser)] "TEST"
        { ticker := "TEST", price := 95, quantity := 3, buyer_id := 2, seller_id := 1,
          buy_order_id := 20, sell_order_id := 10 }) 1
      = some { mmUser with cash := mmUser.cash + (95 : Rat) * ((3 : Int) : Rat) } := by
  exact (C4_settlement_ignores_mm_flag [(1, mmUser), (2, buyerUser)] "TEST"
    { ticker := "TEST", price := 95, quantity := 3, buyer_id := 2, seller_id := 1,
      buy_order_id := 20, sell_order_id := 10 } buyerUser mmUser
    (by rfl) (by rfl) (by decide)).2

/-- C10: quantity conservation of `MatchingEngine.process_order` on both
sides — the total traded quantity equals the taker's decrease and the
opposite side's total decrease, and (given the book invariant that
resting quantities are positive) every emitted trade has quantity ≥ 1. -/
theorem C10_conservation (book : OrderBook) (inc : Order) :
    (sumQty (process_order book inc "buy").2.2
        = inc.quantity - (process_order book inc "buy").2.1.quantity
      ∧ sumOrderQty book.asks
        = sumOrderQty (process_order book inc "buy").1.asks
            + sumQty (process_order book inc "buy").2.2
      ∧ ((∀ a ∈ book.asks, 0 < a.quantity) →
          ∀ t ∈ (process_order book inc "buy").2.2, 1 ≤ t.quantity))
    ∧ (sumQty (process_order book inc "sell").2.2
        = inc.quantity - (process_order book inc "sell").2.1.quantity
      ∧ sumOrderQty book.bids
        = sumOrderQty (process_order book inc "sell").1.bids
            + sumQty (process_order book inc "sell").2.2
      ∧ ((∀ b ∈ book.bids, 0 < b.quantity) →
          ∀ t ∈ (process_order book inc "sell").2.2, 1 ≤ t.quantity)) := by
  rw [process_order_buy, process_order_sell]
  constructor
  · refine ⟨(matchBuy_conserve book.ticker inc book.asks).1, ?_, ?_⟩
    · have h2 := (matchBuy_conserve book.ticker inc book.asks).2
      by_cases hc : 0 < (matchBuy book.ticker inc book.asks).1.quantity
      · simpa [if_pos hc, OrderBook.add_order] using h2
      · simpa [if_neg hc] using h2
    · intro hpos
      exact matchBuy_trades_pos book.ticker inc book.asks hpos
  · refine ⟨(matchSell_conserve book.ticker inc book.bids).1, ?_, ?_⟩
    · have h2 := (matchSell_conserve book.ticker inc book.bids).2
      by_cases hc : 0 < (matchSell book.ticker inc book.bids).1.quantity
      · simpa [if_pos hc, OrderBook.add_order] using h2
      · simpa [if_neg hc] using h2
    · intro hpos
      exact matchSell_trades_pos book.ticker inc book.bids hpos

/-- C10 witness: instantiation on a concrete book (one resting ask 3 @
95, positive quantities) and a crossing bid; the single emitted trade has
quantity ≥ 1. -/
theorem C10_conservation_witness :
    (1 : Int) ≤ (Trade.mk "TEST" 95 3 2 1 20 10).quantity := by
  exact (C10_conservation { ticker := "TEST", bids := [], asks := [mmAsk95] }
      { price := 100, quantity := 10, user_id := 2, timestamp := 1, order_id := 20 }).1.2.2
    (by decide) (Trade.mk "TEST" 95 3 2 1 20 10) (by decide)

theorem removeFirstById_subset (oid : Nat) (l : List Order) :
    ∀ x ∈ (removeFirstById oid l).2, x ∈ l := by
  induction l with
  | nil => intro x hx; simp [removeFirstById] at hx
  | cons o rest ih =>
    by_cases h : o.order_id = oid
    · simp only [removeFirstById, if_pos h]
      intro x hx
      exact List.mem_cons_of_mem o hx
    · simp only [removeFirstById, if_neg h]
      intro x hx
      rcases List.mem_cons.mp hx with rfl | hx'
      · exact List.mem_cons_self x rest
      · exact List.mem_cons_of_mem o (ih x hx')

theorem askLe_price_le {x y : Order} (h : askLe x y) : x.price ≤ y.price := by
  rcases h with h | ⟨h, _⟩
  · exact le_of_lt h
  · exact le_of_eq h

theorem bidLe_price_ge {x y : Order} (h : bidLe x y) : y.price ≤ x.price := by
  rcases h with h | ⟨h, _⟩
  · exact le_of_lt h
  · exact le_of_eq h.symm

/-- C6 counterexample: `OrderBook.add_order` itself checks nothing — a
direct addition of a bid at 110 to a book whose best ask is 100 leaves
the book crossed (best bid 110 ≥ best ask 100), so the no-cross claim
fails for raw order additions. -/
theorem C6_counterexample :
    ((OrderBook.add_order (OrderBook.mk "T" [] [Order.mk 100 5 1 0 1])
        (Order.mk 110 5 2 1 2) "buy").bids.head?.map Order.price = some 110)
    ∧ ((OrderBook.add_order (OrderBook.mk "T" [] [Order.mk 100 5 1 0 1])
        (Order.mk 110 5 2 1 2) "buy").asks.head?.map Order.price = some 100)
    ∧ ¬ ((110 : Rat) < 100) := by
  refine ⟨by rfl, by rfl, by norm_num⟩

/-- C6 (amended): with a sorted, cross-free book, every operation the
exchange actually performs preserves cross-freeness: matching via
`process_order` on any side (which rests the taker only at a
non-crossing price), and order removals; a raw `add_order` preserves it
only when the added price does not cross, as the counterexample shows. -/
theorem C6_no_cross_preserved (book : OrderBook) (inc : Order) (side : String)
    (hb : List.Sorted bidLe book.bids) (ha : List.Sorted askLe book.asks)
    (hcross : ∀ b ∈ book.bids, ∀ a ∈ book.asks, b.price < a.price) :
    (∀ b ∈ (process_order book inc side).1.bids, ∀ a ∈ (process_order book inc side).1.asks,
        b.price < a.price)
    ∧ (∀ uid, ∀ b ∈ (OrderBook.remove_orders_by_user book uid).2.bids,
        ∀ a ∈ (OrderBook.remove_orders_by_user book uid).2.asks, b.price < a.price)
    ∧ (∀ oid s, ∀ b ∈ (OrderBook.remove_order book oid s).2.bids,
        ∀ a ∈ (OrderBook.remove_order book oid s).2.asks, b.price < a.price) := by
  refine ⟨?_, ?_, ?_⟩
  · by_cases hbuy : side = "buy"
    · subst hbuy
      rw [process_order_buy]
      intro b hbm a ham
      by_cases hc : 0 < (matchBuy book.ticker inc book.asks).1.quantity
      · rw [if_pos hc] at hbm ham
        simp [OrderBook.add_order] at hbm ham
        have hrest := matchBuy_sorted book.ticker inc book.asks ha
        rcases hbm with hbm' | hbm'
        · obtain ⟨a0, ha0, hpe, _, _⟩ := matchBuy_rest_mem book.ticker inc book.asks a ham
          rw [hpe]
          exact hcross b hbm' a0 ha0
        · subst hbm'
          cases hrem : (matchBuy book.ticker inc book.asks).2.1 with
          | nil => rw [hrem] at ham; simp at ham
          | cons x rest2 =>
            have hx := matchBuy_exit book.ticker inc book.asks hc x rest2 hrem
            rw [hrem] at ham hrest
            rcases List.mem_cons.mp ham with rfl | ham'
            · exact hx
            · exact lt_of_lt_of_le hx
                (askLe_price_le (List.rel_of_sorted_cons hrest a ham'))
      · rw [if_neg hc] at hbm ham
        simp only at hbm ham
        obtain ⟨a0, ha0, hpe, _, _⟩ := matchBuy_rest_mem book.ticker inc book.asks a ham
        rw [hpe]
        exact hcross b hbm a0 ha0
    · by_cases hsell : side = "sell"
      · subst hsell
        rw [process_order_sell]
        intro b hbm a ham
        by_cases hc : 0 < (matchSell book.ticker inc book.bids).1.quantity
        · rw [if_pos hc] at hbm ham
          simp [OrderBook.add_order] at hbm ham
          have hrest := matchSell_sorted book.ticker inc book.bids hb
          rcases ham with ham' | ham'
          · obtain ⟨b0, hb0, hpe, _, _⟩ := matchSell_rest_mem book.ticker inc book.bids b hbm
            rw [hpe]
            exact hcross b0 hb0 a ham'
          · subst ham'
            cases hrem : (matchSell book.ticker inc book.bids).2.1 with
            | nil => rw [hrem] at hbm; simp at hbm
            | cons x rest2 =>
              have hx := matchSell_exit book.ticker inc book.bids hc x rest2 hrem
              rw [hrem] at hbm hrest
              rcases List.mem_cons.mp hbm with rfl | hbm'
              · exact hx
              · exact lt_of_le_of_lt
                  (bidLe_price_ge (List.rel_of_sorted_cons hrest b hbm')) hx
        · rw [if_neg hc] at hbm ham
          simp only at hbm ham
          obtain ⟨b0, hb0, hpe, _, _⟩ := matchSell_rest_mem book.ticker inc book.bids b hbm
          rw [hpe]
          exact hcross b0 hb0 a ham
      · intro b hbm a ham
        simp only [process_order, if_neg hbuy, if_neg hsell] at hbm ham
        exact hcross b hbm a ham
  · intro uid b hbm a ham
    simp only [OrderBook.remove_orders_by_user, List.mem_filter] at hbm ham
    exact hcross b hbm.1 a ham.1
  · intro oid s b hbm a ham
    by_cases hs : s = "buy"
    · simp only [OrderBook.remove_order, if_pos hs] at hbm ham
      exact hcross b (removeFirstById_subset oid book.bids b hbm) a ham
    · simp only [OrderBook.remove_order, if_neg hs] at hbm ham
      exact hcross b hbm a (removeFirstById_subset oid book.asks a ham)

/-- C6 witness: instantiation on a concrete cross-free book (bid 90, ask
100) with a buy taker at 95 that rests: the rested bid stays below the
ask. -/
theorem C6_no_cross_preserved_witness :
    (Order.mk 95 2 2 1 3).price < (Order.mk 100 5 1 0 2).price := by
  exact (C6_no_cross_preserved
      (OrderBook.mk "T" [Order.mk 90 5 1 0 1] [Order.mk 100 5 1 0 2])
      (Order.mk 95 2 2 1 3) "buy"
      (by decide) (by decide) (by decide)).1
    (Order.mk 95 2 2 1 3) (by decide) (Order.mk 100 5 1 0 2) (by decide)

/-- C7: price–time priority. In a sorted book, a bid with strictly
higher price sits strictly earlier than a lower-priced bid and is
therefore consumed first (the matching loop consumes exactly a front
segment of the list, in order); among equal prices the smaller timestamp
sits earlier; with equal price and timestamp, a previously resting order
stays ahead of a newly added one (stability of the sort); symmetrically
for asks with the price order reversed. -/
theorem C7_price_time_priority (book : OrderBook) (inc o : Order)
    (hb : List.Sorted bidLe book.bids) (ha : List.Sorted askLe book.asks) :
    (∀ i j : Fin book.bids.length,
        (book.bids.get j).price < (book.bids.get i).price → i < j)
    ∧ (∀ i j : Fin book.bids.length,
        (book.bids.get i).price = (book.bids.get j).price →
        (book.bids.get i).timestamp < (book.bids.get j).timestamp → i < j)
    ∧ (matchSell book.ticker inc book.bids).2.2.map Trade.buy_order_id
        = (book.bids.take (matchSell book.ticker inc book.bids).2.2.length).map Order.order_id
    ∧ (∀ i j : Fin book.asks.length,
        (book.asks.get i).price < (book.asks.get j).price → i < j)
    ∧ (∀ i j : Fin book.asks.length,
        (book.asks.get i).price = (book.asks.get j).price →
        (book.asks.get i).timestamp < (book.asks.get j).timestamp → i < j)
    ∧ (matchBuy book.ticker inc book.asks).2.2.map Trade.sell_order_id
        = (book.asks.take (matchBuy book.ticker inc book.asks).2.2.length).map Order.order_id
    ∧ (∀ x ∈ book.bids, x.price = o.price → x.timestamp = o.timestamp →
        [x, o].Sublist (OrderBook.add_order book o "buy").bids)
    ∧ (∀ x ∈ book.asks, x.price = o.price → x.timestamp = o.timestamp →
        [x, o].Sublist (OrderBook.add_order book o "sell").asks) := by
  refine ⟨?_, ?_, matchSell_makers book.ticker inc book.bids, ?_, ?_,
    matchBuy_makers book.ticker inc book.asks, ?_, ?_⟩
  · intro i j h
    by_contra hij
    push_neg at hij
    rcases lt_or_eq_of_le hij with hlt | heq
    · rcases List.Sorted.rel_get_of_lt hb hlt with h2 | ⟨h2, _⟩
      · exact absurd h (not_lt.mpr (le_of_lt h2))
      · rw [h2] at h
        exact lt_irrefl _ h
    · rw [heq] at h
      exact lt_irrefl _ h
  · intro i j hp ht
    by_contra hij
    push_neg at hij
    rcases lt_or_eq_of_le hij with hlt | heq
    · rcases List.Sorted.rel_get_of_lt hb hlt with h2 | ⟨_, h3⟩
      · rw [hp] at h2
        exact lt_irrefl _ h2
      · exact absurd ht (not_lt.mpr h3)
    · rw [heq] at ht
      exact lt_irrefl _ ht
  · intro i j h
    by_contra hij
    push_neg at hij
    rcases lt_or_eq_of_le hij with hlt | heq
    · rcases List.Sorted.rel_get_of_lt ha hlt with h2 | ⟨h2, _⟩
      · exact absurd h (not_lt.mpr (le_of_lt h2))
      · rw [← h2] at h
        exact lt_irrefl _ h
    · rw [heq] at h
      exact lt_irrefl _ h
  · intro i j hp ht
    by_contra hij
    push_neg at hij
    rcases lt_or_eq_of_le hij with hlt | heq
    · rcases List.Sorted.rel_get_of_lt ha hlt with h2 | ⟨_, h3⟩
      · rw [hp] at h2
        exact lt_irrefl _ h2
      · exact absurd ht (not_lt.mpr h3)
    · rw [heq] at ht
      exact lt_irrefl _ ht
  · intro x hx hp ht
    have hxo : bidLe x o := Or.inr ⟨hp, le_of_eq ht⟩
    have h2 : [x, o].Sublist (book.bids ++ [o]) := by
      have h1 := (List.singleton_sublist.mpr hx).append (List.Sublist.refl [o])
      simpa using h1
    have hbids : (OrderBook.add_order book o "buy").bids
        = List.insertionSort bidLe (book.bids ++ [o]) := by
      simp [OrderBook.add_order]
    rw [hbids]
    exact List.pair_sublist_insertionSort hxo h2
  · intro x hx hp ht
    have hxo : askLe x o := Or.inr ⟨hp, le_of_eq ht⟩
    have h2 : [x, o].Sublist (book.asks ++ [o]) := by
      have h1 := (List.singleton_sublist.mpr hx).append (List.Sublist.refl [o])
      simpa using h1
    have hasks : (OrderBook.add_order book o "sell").asks
        = List.insertionSort askLe (book.asks ++ [o]) := by
      simp [OrderBook.add_order]
    rw [hasks]
    exact List.pair_sublist_insertionSort hxo h2

/-- C7 witness: instantiation of the stability conjunct — a bid equal in
price and timestamp to a resting bid is placed behind it by `add_order`. -/
theorem C7_price_time_priority_witness :
    [Order.mk 100 5 1 0 12, Order.mk 100 7 9 0 99].Sublist
      ((OrderBook.mk "T" [Order.mk 105 5 1 0 11, Order.mk 100 5 1 0 12] []).add_order
        (Order.mk 100 7 9 0 99) "buy").bids := by
  exact (C7_price_time_priority
      (OrderBook.mk "T" [Order.mk 105 5 1 0 11, Order.mk 100 5 1 0 12] [])
      (Order.mk 1 1 1 0 1) (Order.mk 100 7 9 0 99)
      (by decide) (by decide)).2.2.2.2.2.2.1
    (Order.mk 100 5 1 0 12) (by decide) (by decide) (by decide)

theorem pget_setA_self (p : List (String × Int)) (t : String) (v : Int) :
    pget (setA p t v) t = v := by
  simp [pget, lookupA_setA_self]

theorem refundEscrowSpec_escrowSpec (user u1 : User) (symbol : String) (order : Order)
    (side : Side) (hq : 0 < order.quantity)
    (hesc : escrowSpec user symbol order side = Except.ok u1) :
    refundEscrowSpec u1 symbol order side = user := by
  unfold escrowSpec at hesc
  by_cases hmm : user.is_market_maker
  · rw [if_pos hmm] at hesc
    cases hesc
    simp [refundEscrowSpec, hmm]
  · rw [if_neg hmm] at hesc
    cases side
    · by_cases hc : user.cash < order.price * (order.quantity : Rat)
      · simp [hc] at hesc
      · simp only [if_neg hc] at hesc
        cases hesc
        simp only [refundEscrowSpec, hmm, if_neg, Bool.false_eq_true, if_false]
        have : user.cash - order.price * (order.quantity : Rat)
            + order.price * (order.quantity : Rat) = user.cash := by ring
        rw [this]
        have hm2 : user.is_market_maker = false := by simpa using hmm
        rw [← hm2]
    · by_cases hc : pget user.portfolio symbol < order.quantity
      · simp [hc] at hesc
      · simp only [if_neg hc] at hesc
        cases hesc
        simp only [refundEscrowSpec, hmm, Bool.false_eq_true, if_false]
        rw [pget_setA_self, setA_setA]
        have h1 : pget user.portfolio symbol - order.quantity + order.quantity
            = pget user.portfolio symbol := by ring
        rw [h1]
        have h2 : ∃ v, lookupA user.portfolio symbol = some v := by
          rcases hl : lookupA user.portfolio symbol with _ | v
          · exfalso
            have : pget user.portfolio symbol = 0 := by simp [pget, hl]
            omega
          · exact ⟨v, rfl⟩
        obtain ⟨v, hv⟩ := h2
        have hpv : pget user.portfolio symbol = v := by simp [pget, hv]
        rw [hpv, setA_eq_of_lookupA hv]
        have hm2 : user.is_market_maker = false := by simpa using hmm
        rw [← hm2]

/-- C2 (spec-modelled): FOK atomicity of the spec-level `place_order`.
Either the call returns a full fill — status "filled" with the traded
quantity summing to the whole order — or it fails, and on failure the
exchange state is returned identical to the pre-call state (so the
failed path produces no trades and rests nothing); moreover, when the
inputs validate, the escrow succeeds and the crossable quantity at the
order's price is short of the order, the error is precisely
FOKUnfillable, raised only after the full escrow refund. -/
theorem C2_fok_atomicity (e : Exchange) (symbol : String) (order : Order) (side : Side)
    (book : OrderBook)
    (hbook : lookupA e.order_books symbol = some book)
    (hpos : ∀ x, x ∈ book.bids ∨ x ∈ book.asks → 0 < x.quantity) :
    ((∃ trades, (place_order_spec e symbol order side Tif.fok).2 = Except.ok (trades, "filled")
        ∧ sumQty trades = order.quantity)
      ∨ ((place_order_spec e symbol order side Tif.fok).1 = e
        ∧ ∃ err, (place_order_spec e symbol order side Tif.fok).2 = Except.error err))
    ∧ (∀ user u1, lookupA e.users order.user_id = some user →
        0 < order.price → 0 < order.quantity →
        escrowSpec user symbol order side = Except.ok u1 →
        crossableQty side order.price book < order.quantity →
        (place_order_spec e symbol order side Tif.fok).2
          = Except.error SpecErr.fokUnfillable) := by
  cases hu : lookupA e.users order.user_id with
  | none =>
    have hR : place_order_spec e symbol order side Tif.fok
        = (e, Except.error SpecErr.unknownAccount) := by
      simp [place_order_spec, hbook, hu]
    rw [hR]
    refine ⟨Or.inr ⟨rfl, SpecErr.unknownAccount, rfl⟩, ?_⟩
    intro user u1 hu' _ _ _ _
    cases hu'
  | some user =>
    by_cases hval : 0 < order.price ∧ 0 < order.quantity
    · cases hesc : escrowSpec user symbol order side with
      | error err =>
        have hR : place_order_spec e symbol order side Tif.fok
            = (e, Except.error err) := by
          simp only [place_order_spec, hbook, hu, if_pos hval, hesc]
        rw [hR]
        refine ⟨Or.inr ⟨rfl, err, rfl⟩, ?_⟩
        intro user' u1' hu' _ _ hesc' _
        cases hu'
        rw [hesc] at hesc'
        cases hesc'
      | ok user1 =>
        by_cases hcr : crossableQty side order.price book < order.quantity
        · have huser2 := refundEscrowSpec_escrowSpec user user1 symbol order side hval.2 hesc
          have hR : place_order_spec e symbol order side Tif.fok
              = (e, Except.error SpecErr.fokUnfillable) := by
            simp only [place_order_spec, hbook, hu, if_pos hval, hesc]
            rw [if_pos ⟨trivial, hcr⟩, huser2, setA_setA, setA_eq_of_lookupA hu]
          rw [hR]
          exact ⟨Or.inr ⟨rfl, SpecErr.fokUnfillable, rfl⟩, fun _ _ _ _ _ _ _ => rfl⟩
        · refine ⟨Or.inl ?_, ?_⟩
          · cases side with
            | bid =>
              have hfill : (matchBuy book.ticker order book.asks).1.quantity = 0 := by
                apply matchBuy_fills book.ticker order book.asks
                  (fun a hx => hpos a (Or.inr hx)) hval.2
                simp only [crossableQty] at hcr
                omega
              refine ⟨(matchBuy book.ticker order book.asks).2.2, ?_, ?_⟩
              · simp only [place_order_spec, hbook, hu, if_pos hval, hesc,
                  if_neg (fun hC => hcr (And.right hC))]
              · have hc1 := (matchBuy_conserve book.ticker order book.asks).1
                rw [hfill] at hc1
                omega
            | ask =>
              have hfill : (matchSell book.ticker order book.bids).1.quantity = 0 := by
                apply matchSell_fills book.ticker order book.bids
                  (fun b hx => hpos b (Or.inl hx)) hval.2
                simp only [crossableQty] at hcr
                omega
              refine ⟨(matchSell book.ticker order book.bids).2.2, ?_, ?_⟩
              · simp only [place_order_spec, hbook, hu, if_pos hval, hesc,
                  if_neg (fun hC => hcr (And.right hC))]
              · have hc1 := (matchSell_conserve book.ticker order book.bids).1
                rw [hfill] at hc1
                omega
          · intro user' u1' _ _ _ _ hcr'
            exact absurd hcr' hcr
    · have hR : place_order_spec e symbol order side Tif.fok
          = (e, Except.error SpecErr.badInput) := by
        simp only [place_order_spec, hbook, hu, if_neg hval]
      rw [hR]
      refine ⟨Or.inr ⟨rfl, SpecErr.badInput, rfl⟩, ?_⟩
      intro user' u1' _ hp hq _ _
      exact absurd ⟨hp, hq⟩ hval

/-- C2 witness: with only 3 crossable shares at the price, a FOK bid for
10 fails with FOKUnfillable, via `C2_fok_atomicity` at concrete inputs. -/
theorem C2_fok_atomicity_witness :
    (place_order_spec
        (Exchange.mk [("TEST", OrderBook.mk "TEST" [] [mmAsk95])] [("TEST", 100)]
          [(1, mmUser), (2, buyerUser)])
        "TEST" (Order.mk 100 10 2 1 20) Side.bid Tif.fok).2
      = Except.error SpecErr.fokUnfillable := by
  exact (C2_fok_atomicity
      (Exchange.mk [("TEST", OrderBook.mk "TEST" [] [mmAsk95])] [("TEST", 100)]
        [(1, mmUser), (2, buyerUser)])
      "TEST" (Order.mk 100 10 2 1 20) Side.bid (OrderBook.mk "TEST" [] [mmAsk95])
      (by rfl)
      (by
        intro x hx
        rcases hx with h | h
        · simp at h
        · simp at h
          subst h
          decide)).2
    buyerUser (User.mk 2 "buyer" 9000 [] false) (by rfl) (by norm_num) (by norm_num)
    (by norm_num [escrowSpec, buyerUser]) (by decide)
